import Mathlib

/-!
Shallow embedding of `core/asset/finalize.go` from the `chain` repository:
the transaction-finalization pipeline (`FinalizeTx`, `publishTx`,
`FinalizeTxWait`) and the account-UTXO materialized index
(`insertAccountOutputs`, `markPrevSpentInPool`, `addBlock`, `toKeyIndex`).

Database effects are modelled as pure functions on an explicit table state;
the ledger engine, the generator relay and the signature assembler are
modelled as oracles (fields of an environment record), so that every
observable behaviour of the Go code is a function of the environment and the
starting state.
-/

namespace ChainAsset

/-- Transaction hashes, modelled by their string form: the Go code uses
`Hash.String()` as the database key and compares hashes by value. -/
abbrev Hash := String

/-- An outpoint `(transaction hash, output index)` (`bc.Outpoint`). -/
structure Outpoint where
  hash : Hash
  index : Nat
deriving DecidableEq

/-- A transaction input (`bc.TxInput`): either an issuance or a reference to
a previous output. -/
structure TxInput where
  isIssuance : Bool
  previous : Outpoint
deriving DecidableEq

/-- A transaction output (`bc.TxOutput`): asset id, amount, locking script,
opaque metadata. -/
structure TxOutput where
  assetID : String
  amount : Nat
  script : String
  metadata : String
deriving DecidableEq

/-- An assembled transaction (`bc.Tx`), identified by its content hash. -/
structure Tx where
  hash : Hash
  inputs : List TxInput
  outputs : List TxOutput
deriving DecidableEq

/-- A block (`bc.Block`): height and the ordered list of included
transactions. -/
structure Block where
  height : Nat
  transactions : List Tx
deriving DecidableEq

/-- Modelled from the spec (section 7 taxonomy; the `chain/errors` package is
not part of the given sources): an error value is classified by a root
sentinel; wrapping preserves the root. -/
inductive ErrRoot where
  | badTxTemplate
  | rejected
  | validationBadTx
  | theDistantFuture
  | deadlineExceeded
  | canceled
  | other (msg : String)
deriving DecidableEq

/-- Modelled from the spec: an error of the `chain/errors` package carries a
root sentinel (used for classification), an optional detail string, and a
stack of human-readable context messages added by wrapping. -/
structure Err where
  root : ErrRoot
  detail : Option String
  context : List String
deriving DecidableEq

/-- Modelled from the spec: a fresh sentinel error (`errors.New`). -/
def Err.new (r : ErrRoot) : Err := ⟨r, none, []⟩

/-- Modelled from the spec: `errors.Wrap` / `errors.Wrapf` prepend context
messages and preserve the root and the detail. -/
def Err.wrap (msgs : List String) (e : Err) : Err :=
  { e with context := msgs ++ e.context }

/-- Modelled from the spec: `errors.WithDetail` attaches a detail string,
preserving the root. -/
def Err.withDetail (e : Err) (d : String) : Err :=
  { e with detail := some d }

/-- Modelled from the spec: `errors.Detail` returns the attached detail
string (empty when absent). -/
def Err.detailStr (e : Err) : String := e.detail.getD ""

/-- Modelled from the spec: the root message of a sentinel, as it renders in
the error text. -/
def ErrRoot.msg : ErrRoot → String
  | .badTxTemplate => "bad transaction template"
  | .rejected => "transaction rejected"
  | .validationBadTx => "invalid transaction"
  | .theDistantFuture => "block height too far in future"
  | .deadlineExceeded => "context deadline exceeded"
  | .canceled => "context canceled"
  | .other m => m

/-- Modelled from the spec: the rendered text of an error (context messages
followed by the root message). -/
def Err.text (e : Err) : String :=
  String.intercalate ": " (e.context ++ [e.root.msg])

/-- The derivation-index packing helper `toKeyIndex` from `finalize.go`:
`return int64(i[0])<<31 | int64(i[1]&0x7fffffff)`.  The callers always pass a
two-element slice (`out.AddrIndex[:]` with `AddrIndex` a two-element array of
32-bit components); for such components the `int64` arithmetic cannot
overflow, so the value is the corresponding natural number. -/
def toKeyIndex (i : List Nat) : Int :=
  Int.ofNat (((i.getD 0 0) <<< 31) ||| ((i.getD 1 0) &&& 0x7fffffff))

/-- A row of the `account_utxos` store, with the logical columns of the
persisted schema. -/
structure Row where
  txHash : String
  index : Nat
  assetID : String
  amount : Nat
  managerNodeID : String
  accountID : String
  addrIndex : Int
  script : String
  metadata : String
  spentInPool : Bool
  confirmedIn : Option Nat
  blockPos : Option Nat
deriving DecidableEq, Inhabited

/-- The `account_utxos` relation, as an ordered list of rows. -/
abbrev Table := List Row

/-- The composite key `(tx_hash, index)` of a row. -/
def rowKey (r : Row) : String × Nat := (r.txHash, r.index)

/-- Uniqueness of the `(tx_hash, index)` key across the table. -/
def keysUnique (t : Table) : Prop := (t.map rowKey).Nodup

instance (t : Table) : Decidable (keysUnique t) := by
  unfold keysUnique; infer_instance

/-- Number of rows of the table carrying a given `(tx_hash, index)` key. -/
def countKey (t : Table) (k : String × Nat) : Nat :=
  List.count k (t.map rowKey)

/-- A resolved output (`txdb.Output`): an output together with its outpoint
and the account information filled in by `loadAccountInfo`. -/
structure Output where
  outpoint : Outpoint
  assetID : String
  amount : Nat
  accountID : String
  managerNodeID : String
  addrIndex : Nat × Nat
  script : String
  metadata : String
deriving DecidableEq

/-- The row built by `insertAccountOutputs` for one resolved output: the Go
code builds one parallel-array slot per output
(`out.Outpoint.Hash.String()`, `out.Outpoint.Index`, ..,
`toKeyIndex(out.AddrIndex[:])`) and the INSERT lists them as
`(tx_hash, index, asset_id, amount, manager_node_id, account_id, addr_index,
script, metadata)`; the remaining columns start at their defaults. -/
def rowOfOutput (out : Output) : Row :=
  { txHash := out.outpoint.hash
    index := out.outpoint.index
    assetID := out.assetID
    amount := out.amount
    managerNodeID := out.managerNodeID
    accountID := out.accountID
    addrIndex := toKeyIndex [out.addrIndex.1, out.addrIndex.2]
    script := out.script
    metadata := out.metadata
    spentInPool := false
    confirmedIn := none
    blockPos := none }

/-- One row of the batched `INSERT .. ON CONFLICT (tx_hash, index) DO
NOTHING`: the row is appended unless its key is already present (also when
the duplicate was produced earlier in the same batch). -/
def insertRow (t : Table) (r : Row) : Table :=
  if rowKey r ∈ t.map rowKey then t else t ++ [r]

/-- The `insertAccountOutputs` function of `finalize.go`: a single batched
insert of the rows of the given resolved outputs, ignoring key conflicts. -/
def insertAccountOutputs (outs : List Output) (t : Table) : Table :=
  (outs.map rowOfOutput).foldl insertRow t

/-- The outpoints referenced by the non-issuance inputs of the given
transactions, in traversal order (the two parallel arrays `txhash`/`index`
built by `markPrevSpentInPool`). -/
def prevOutpoints (txs : List Tx) : List Outpoint :=
  txs.flatMap fun tx =>
    (tx.inputs.filter fun i => !i.isIssuance).map fun i => i.previous

/-- Whether an outpoint of the batch matches a row's `(tx_hash, index)`. -/
def refersTo (o : Outpoint) (r : Row) : Bool :=
  o.hash == r.txHash && o.index == r.index

/-- Whether a row's `(tx_hash, index)` is among the outpoints referenced by
the non-issuance inputs of the given transactions (the `WHERE (tx_hash,
index) IN ..` filter of the batched update). -/
def rowHit (txs : List Tx) (r : Row) : Bool :=
  (prevOutpoints txs).any fun o => refersTo o r

/-- The `markPrevSpentInPool` function of `finalize.go`: one batched
`UPDATE account_utxos SET spent_in_pool=$1 WHERE (tx_hash, index) IN ..`
over the outpoints referenced by the non-issuance inputs of `txs`. -/
def markPrevSpentInPool (spent : Bool) (txs : List Tx) (t : Table) : Table :=
  t.map fun r =>
    if rowHit txs r then { r with spentInPool := spent } else r

/-- A signature entry of a transaction template (`txbuilder.Input`); its
payload is only consumed by the external signature assembler, so it is
carried opaquely. -/
structure TemplateInput where
  raw : String
deriving DecidableEq

/-- The unsigned transaction skeleton of a template (`bc.TxData` under
`Template.Unsigned`); only its input list is observed here. -/
structure UnsignedTx where
  inputs : List TxInput
deriving DecidableEq

/-- A transaction signature template (`txbuilder.Template`): the unsigned
skeleton plus the signature entries. -/
structure Template where
  unsigned : UnsignedTx
  inputs : List TemplateInput
deriving DecidableEq

/-- The observable ledger-side state threaded through the pipeline: the
transactions added to the local pool by `fc.AddTx`, and the `Submit` calls
issued to the generator by `rpcclient.Submit` (relay attempts, successful or
not). -/
structure LState where
  pool : List Tx
  relayed : List Tx
deriving DecidableEq

/-- The environment of the finalize pipeline: the process-wide `Generator`
address pointer (a `nil` pointer is `none`), and oracles fixing the outcomes
of `fc.AddTx`, `rpcclient.Submit`, `txbuilder.AssembleSignatures` and
`Tx.MarshalText` (the last returns the serialized text, or `none` on
failure). -/
structure FinEnv where
  generator : Option String
  addTxErr : Tx → Option Err
  submitErr : Tx → Option Err
  assemble : Template → Except String Tx
  marshalText : Tx → Option String

/-- The `publishTx` function of `finalize.go`: submit to the local pool via
`fc.AddTx`; a validation-root failure is reclassified as `ErrBadTxTemplate`
carrying the validation detail, any other failure is wrapped as
"add tx to blockchain"; on success, when the `Generator` address is set and
non-empty, relay via `rpcclient.Submit` and surface a relay failure as a
wrapped error without undoing the local submission. -/
def publishTx (env : FinEnv) (msg : Tx) (s : LState) : LState × Option Err :=
  match env.addTxErr msg with
  | some err =>
    if err.root = ErrRoot.validationBadTx then
      let detail := err.detailStr
      let err2 := Err.wrap [err.text] (Err.new ErrRoot.badTxTemplate)
      (s, some (err2.withDetail detail))
    else
      (s, some (Err.wrap ["add tx to blockchain"] err))
  | none =>
    let s1 : LState := { s with pool := s.pool ++ [msg] }
    match env.generator with
    | none => (s1, none)
    | some g =>
      if g = "" then (s1, none)
      else
        let s2 : LState := { s1 with relayed := s1.relayed ++ [msg] }
        match env.submitErr msg with
        | some err => (s2, some (Err.wrap ["generator transaction notice"] err))
        | none => (s2, none)

/-- The `FinalizeTx` function of `finalize.go`: reject templates with more
signature entries than unsigned inputs, assemble signatures (failures wrapped
as `ErrBadTxTemplate` with the assembler's message as detail), then publish;
a publish failure is wrapped with the serialized transaction
(`errors.Wrapf(err, "tx=%s", rawtx)`), or returned unchanged when
serialization itself fails. -/
def FinalizeTx (env : FinEnv) (txTemplate : Template) (s : LState) :
    LState × Except Err Tx :=
  if txTemplate.inputs.length > txTemplate.unsigned.inputs.length then
    (s, .error ((Err.new ErrRoot.badTxTemplate).withDetail
      "too many inputs in template"))
  else
    match env.assemble txTemplate with
    | .error msg =>
      (s, .error ((Err.new ErrRoot.badTxTemplate).withDetail msg))
    | .ok msg =>
      match publishTx env msg s with
      | (s1, some err) =>
        match env.marshalText msg with
        | none => (s1, .error err)
        | some rawtx => (s1, .error (Err.wrap ["tx=" ++ rawtx] err))
      | (s1, none) => (s1, .ok msg)

/-- The waiting environment of `FinalizeTxWait`: the `fc.LatestBlock`
observation made before finalizing, the outcome of `fc.WaitForBlock` per
height, the pool/chain transaction sets reported by `fc.GetTxs` once the
block at a height has landed, and the caller's context (`ctxDoneAt h` holds
when the context completes before the block at height `h` is observed;
`ctxErr` is the value of `ctx.Err()` then). -/
structure WaitEnv where
  latestBlock : Except Err (Option Block)
  waitForBlock : Nat → Option Err
  getTxs : Nat → Except Err (List Hash × List Hash)
  ctxDoneAt : Nat → Bool
  ctxErr : Err

/-- The captured starting height of `FinalizeTxWait`: `var height uint64`
stays `0` unless `LatestBlock` returned a block. -/
def capturedHeight : Option Block → Nat
  | some b => b.height
  | none => 0

/-- The polling loop of `FinalizeTxWait`, parametrized by fuel (the number
of block landings still allowed to be examined; `none` means the loop is
still running after that many landings).  Each iteration increments the
height, races the context against the block landing, and on a landing
classifies the transaction: in the confirmed chain means confirmed, absent
from both pool and chain means rejected, in the pool only means iterate. -/
def waitLoop (env : WaitEnv) (tx : Tx) : Nat → Nat → Option (Except Err Tx)
  | _, 0 => none
  | height, fuel + 1 =>
    if env.ctxDoneAt (height + 1) then some (.error env.ctxErr)
    else
      match env.waitForBlock (height + 1) with
      | some err =>
        some (.error (Err.wrap ["waiting for block " ++ toString (height + 1)] err))
      | none =>
        match env.getTxs (height + 1) with
        | .error err => some (.error (Err.wrap ["getting pool/bc txs"] err))
        | .ok (poolTxs, bcTxs) =>
          if tx.hash ∈ bcTxs then some (.ok tx)
          else if tx.hash ∉ poolTxs then some (.error (Err.new ErrRoot.rejected))
          else waitLoop env tx (height + 1) fuel

/-- The `FinalizeTxWait` function of `finalize.go`: capture the latest block
height (before finalizing, to avoid missing a block landed between
submission and polling), finalize, then poll from the captured height plus
one. -/
def FinalizeTxWait (fenv : FinEnv) (wenv : WaitEnv) (txTemplate : Template)
    (s : LState) (fuel : Nat) : LState × Option (Except Err Tx) :=
  match wenv.latestBlock with
  | .error err => (s, some (.error (Err.wrap ["getting latest block"] err)))
  | .ok b =>
    let height := capturedHeight b
    match FinalizeTx fenv txTemplate s with
    | (s1, .error err) => (s1, some (.error err))
    | (s1, .ok tx) => (s1, waitLoop wenv tx height fuel)

/-- A log line emitted by `chainlog.Write` in `addBlock`, recording the
swallowed error. -/
structure LogEntry where
  note : String
  err : Err
deriving DecidableEq

/-- The database-failure oracle for `addBlock`: the outcome of the two
`pg.Exec` statements it issues (the confirmation update and the conflict
spend-mark release). -/
structure DbEnv where
  confirmErr : Option Err
  markErr : Option Err

/-- The confirmation update issued by `addBlock`:
`UPDATE account_utxos SET confirmed_in=$3, block_pos=pos .. WHERE
tx_hash=txhash` over the parallel arrays of block positions and transaction
hashes — every row whose `tx_hash` matches a transaction of the block gets
`confirmed_in` set to the block height and `block_pos` to that transaction's
position. -/
def setConfirmed (b : Block) (t : Table) : Table :=
  t.map fun r =>
    match b.transactions.enum.find? (fun p => p.2.hash == r.txHash) with
    | some p => { r with confirmedIn := some b.height, blockPos := some p.1 }
    | none => r

/-- The `addBlock` callback of `finalize.go`: apply the confirmation update,
then release the spend-marks of the conflict transactions; each statement's
error is logged and swallowed, and the function has no error channel at
all — it always returns the updated table and the log. -/
def addBlock (env : DbEnv) (b : Block) (conflicts : List Tx) (t : Table) :
    Table × List LogEntry :=
  let (t1, log1) :=
    match env.confirmErr with
    | some e => (t, [LogEntry.mk "account utxos indexing block" e])
    | none => (setConfirmed b t, [])
  let (t2, log2) :=
    match env.markErr with
    | some e => (t1, [LogEntry.mk "marking prevouts unspent in pool" e])
    | none => (markPrevSpentInPool false conflicts t1, [])
  (t2, log1 ++ log2)

/-! Helper lemmas. -/

/-- Or-ing a left-shifted value with a value below the shift width adds them:
the two operands occupy disjoint bit ranges. -/
lemma shiftLeft_lor_eq_add (a b n : Nat) (hb : b < 2 ^ n) :
    (a <<< n) ||| b = a * 2 ^ n + b := by
  rw [Nat.shiftLeft_eq]
  apply Nat.eq_of_testBit_eq
  intro j
  rw [Nat.testBit_lor, Nat.mul_comm, Nat.testBit_mul_pow_two_add a hb,
    Nat.testBit_mul_pow_two]
  by_cases hj : j < n
  · simp [hj, Nat.not_le_of_lt hj]
  · have hge : n ≤ j := Nat.not_lt.mp hj
    have hbj : b.testBit j = false :=
      Nat.testBit_lt_two_pow (lt_of_lt_of_le hb (Nat.pow_le_pow_right (by norm_num) hge))
    simp [hj, hge, hbj]

/-- C9 counterexample: with high component `1` and low component `0`, the
packed key is `2^31`, not `1 * 2^32 + (0 % 2^31) = 2^32`: the code shifts the
high component by 31 bits, not 32. -/
theorem toKeyIndex_high_times_two_pow_32_cex :
    ¬ (toKeyIndex [1, 0] = 1 * 2 ^ 32 + 0 % 2 ^ 31) := by decide

/-- C9 (amended): `toKeyIndex` packs two 32-bit components into a single
non-negative 63-bit integer with the high component placed in bits 31–62
(shifted left by 31) and the low component masked to bits 0–30: the result
equals `high * 2^31 + (low mod 2^31)`, is non-negative, and is below
`2^63`. -/
theorem toKeyIndex_packs (hi lo : Nat) (h1 : hi < 2 ^ 32) (_h2 : lo < 2 ^ 32) :
    toKeyIndex [hi, lo] = Int.ofNat (hi * 2 ^ 31 + lo % 2 ^ 31)
    ∧ 0 ≤ toKeyIndex [hi, lo] ∧ toKeyIndex [hi, lo] < 2 ^ 63 := by
  have hmask : (0x7fffffff : Nat) = 2 ^ 31 - 1 := by norm_num
  have hmod : lo % 2 ^ 31 < 2 ^ 31 := Nat.mod_lt _ (by norm_num)
  have hval : ((hi <<< 31) ||| (lo &&& 0x7fffffff)) = hi * 2 ^ 31 + lo % 2 ^ 31 := by
    rw [hmask, Nat.and_pow_two_sub_one_eq_mod]
    exact shiftLeft_lor_eq_add hi _ 31 hmod
  have heq : toKeyIndex [hi, lo] = Int.ofNat (hi * 2 ^ 31 + lo % 2 ^ 31) := by
    unfold toKeyIndex
    simp only [List.getD_cons_zero, List.getD_cons_succ]
    rw [hval]
  refine ⟨heq, ?_, ?_⟩
  · rw [heq]; exact Int.ofNat_nonneg _
  · rw [heq]
    have hb : hi * 2 ^ 31 + lo % 2 ^ 31 < 2 ^ 63 := by
      norm_num at h1 hmod ⊢
      omega
    calc Int.ofNat (hi * 2 ^ 31 + lo % 2 ^ 31) < Int.ofNat (2 ^ 63) :=
          Int.ofNat_lt.mpr hb
      _ = 2 ^ 63 := by norm_num

/-- Witness for C9 (amended) at high `1`, low `5`. -/
theorem toKeyIndex_packs_witness :
    1 < 2 ^ 32 ∧ 5 < 2 ^ 32
    ∧ (toKeyIndex [1, 5] = Int.ofNat (1 * 2 ^ 31 + 5 % 2 ^ 31)
        ∧ 0 ≤ toKeyIndex [1, 5] ∧ toKeyIndex [1, 5] < 2 ^ 63) :=
  ⟨by norm_num, by norm_num, toKeyIndex_packs 1 5 (by norm_num) (by norm_num)⟩

/-- C3: a template with more signature entries than unsigned inputs makes
`FinalizeTx` fail with the bad-template error carrying detail "too many
inputs in template", with the ledger state untouched (no submission was
attempted) and with a result that does not depend on the signature assembler
(assembly was never reached). -/
theorem FinalizeTx_too_many_inputs (env : FinEnv) (f : Template → Except String Tx)
    (txTemplate : Template) (s : LState)
    (h : txTemplate.unsigned.inputs.length < txTemplate.inputs.length) :
    FinalizeTx env txTemplate s =
      (s, .error ((Err.new ErrRoot.badTxTemplate).withDetail
        "too many inputs in template"))
    ∧ FinalizeTx { env with assemble := f } txTemplate s
        = FinalizeTx env txTemplate s := by
  have hgt : txTemplate.inputs.length > txTemplate.unsigned.inputs.length := h
  constructor
  · unfold FinalizeTx
    rw [if_pos hgt]
  · unfold FinalizeTx
    rw [if_pos hgt, if_pos hgt]

/-- A concrete assembled transaction spending outpoint `("txP", 0)`. -/
def cTxA : Tx :=
  { hash := "txA"
    inputs := [{ isIssuance := false, previous := { hash := "txP", index := 0 } }]
    outputs := [] }

/-- A concrete template with one signature entry and no unsigned inputs. -/
def cTmplBad : Template :=
  { unsigned := { inputs := [] }, inputs := [{ raw := "sig" }] }

/-- A concrete environment where every oracle succeeds and no generator is
configured. -/
def cEnvOk : FinEnv :=
  { generator := none
    addTxErr := fun _ => none
    submitErr := fun _ => none
    assemble := fun _ => .ok cTxA
    marshalText := fun _ => some "raw" }

/-- The empty ledger state. -/
def cS0 : LState := { pool := [], relayed := [] }

/-- Witness for C3 at a concrete over-full template. -/
theorem FinalizeTx_too_many_inputs_witness :
    cTmplBad.unsigned.inputs.length < cTmplBad.inputs.length
    ∧ (FinalizeTx cEnvOk cTmplBad cS0 =
        (cS0, .error ((Err.new ErrRoot.badTxTemplate).withDetail
          "too many inputs in template"))
      ∧ FinalizeTx { cEnvOk with assemble := fun _ => .error "boom" } cTmplBad cS0
          = FinalizeTx cEnvOk cTmplBad cS0) :=
  ⟨by decide,
    FinalizeTx_too_many_inputs cEnvOk (fun _ => .error "boom") cTmplBad cS0 (by decide)⟩

/-- C4: when local submission fails with the consensus-validation root, the
result of `publishTx` is an error classified as bad-template carrying the
validation detail; when it fails with any other root (the engine never
returns this package's bad-template sentinel), the result is a wrapped
submission error whose root is not bad-template; in both cases the ledger
state is unchanged — in particular no relay to the generator is
attempted. -/
theorem publishTx_classifies_addTx_errors (env : FinEnv) (msg : Tx) (s : LState)
    (err : Err) (h : env.addTxErr msg = some err) :
    (publishTx env msg s).1 = s
    ∧ (err.root = ErrRoot.validationBadTx →
        ∃ e2, publishTx env msg s = (s, some e2)
          ∧ e2.root = ErrRoot.badTxTemplate ∧ e2.detailStr = err.detailStr)
    ∧ (err.root ≠ ErrRoot.validationBadTx → err.root ≠ ErrRoot.badTxTemplate →
        ∃ e2, publishTx env msg s = (s, some e2)
          ∧ e2.root ≠ ErrRoot.badTxTemplate) := by
  unfold publishTx
  rw [h]
  by_cases hroot : err.root = ErrRoot.validationBadTx
  · refine ⟨by simp [hroot], fun _ => ?_, fun hne _ => absurd hroot hne⟩
    refine ⟨(Err.wrap [err.text] (Err.new ErrRoot.badTxTemplate)).withDetail
      err.detailStr, by simp [hroot], rfl, rfl⟩
  · refine ⟨by simp [hroot], fun hr => absurd hr hroot, fun _ hne => ?_⟩
    refine ⟨Err.wrap ["add tx to blockchain"] err, by simp [hroot], ?_⟩
    simpa [Err.wrap] using hne

/-- A concrete consensus-validation failure reported by `fc.AddTx`. -/
def cValErr : Err :=
  { root := ErrRoot.validationBadTx, detail := some "tx is ill-formed", context := [] }

/-- A concrete environment whose `fc.AddTx` reports the validation error. -/
def cEnvBadTx : FinEnv :=
  { cEnvOk with addTxErr := fun _ => some cValErr }

/-- Witness for C4 at a concrete validation failure. -/
theorem publishTx_classifies_addTx_errors_witness :
    cEnvBadTx.addTxErr cTxA = some cValErr
    ∧ ((publishTx cEnvBadTx cTxA cS0).1 = cS0
      ∧ (cValErr.root = ErrRoot.validationBadTx →
          ∃ e2, publishTx cEnvBadTx cTxA cS0 = (cS0, some e2)
            ∧ e2.root = ErrRoot.badTxTemplate ∧ e2.detailStr = cValErr.detailStr)
      ∧ (cValErr.root ≠ ErrRoot.validationBadTx →
          cValErr.root ≠ ErrRoot.badTxTemplate →
          ∃ e2, publishTx cEnvBadTx cTxA cS0 = (cS0, some e2)
            ∧ e2.root ≠ ErrRoot.badTxTemplate)) :=
  ⟨rfl, publishTx_classifies_addTx_errors cEnvBadTx cTxA cS0 cValErr rfl⟩

/-- C5: the generator is contacted only when the process-wide address is set
and non-empty and only after a successful local submission (whenever the
relay log grew, the generator was configured, `fc.AddTx` succeeded, and the
transaction entered the pool); and when the relay itself fails, `publishTx`
returns a non-nil wrapped error while the local submission persists (the
transaction stays in the pool). -/
theorem publishTx_relay_policy (env : FinEnv) (msg : Tx) (s : LState)
    (g : String) (err : Err) :
    ((publishTx env msg s).1.relayed ≠ s.relayed →
      (∃ g0, env.generator = some g0 ∧ g0 ≠ "")
        ∧ env.addTxErr msg = none
        ∧ (publishTx env msg s).1.relayed = s.relayed ++ [msg]
        ∧ (publishTx env msg s).1.pool = s.pool ++ [msg])
    ∧ (env.generator = some g → g ≠ "" → env.addTxErr msg = none →
        env.submitErr msg = some err →
        publishTx env msg s =
          ({ pool := s.pool ++ [msg], relayed := s.relayed ++ [msg] },
            some (Err.wrap ["generator transaction notice"] err))) := by
  constructor
  · intro hgrew
    unfold publishTx at hgrew ⊢
    cases hadd : env.addTxErr msg with
    | some e =>
      rw [hadd] at hgrew
      by_cases hroot : e.root = ErrRoot.validationBadTx <;> simp [hroot] at hgrew
    | none =>
      rw [hadd] at hgrew
      cases hgen : env.generator with
      | none => rw [hgen] at hgrew; simp at hgrew
      | some g0 =>
        rw [hgen] at hgrew
        by_cases hg0 : g0 = ""
        · simp [hg0] at hgrew
        · refine ⟨⟨g0, rfl, hg0⟩, rfl, ?_, ?_⟩ <;>
            cases hsub : env.submitErr msg <;> simp [hg0, hsub]
  · intro hgen hg hadd hsub
    unfold publishTx
    simp only [hadd, hgen]
    rw [if_neg hg]
    simp only [hsub]

/-- A concrete environment with a configured generator whose `Submit`
fails. -/
def cRelayErr : Err := { root := ErrRoot.other "rpc timeout", detail := none, context := [] }

/-- A concrete environment: generator configured, local submission succeeds,
relay fails. -/
def cEnvRelayFail : FinEnv :=
  { cEnvOk with
    generator := some "gen.example:1999"
    submitErr := fun _ => some cRelayErr }

/-- Witness for C5 at a concrete failing relay. -/
theorem publishTx_relay_policy_witness :
    ((publishTx cEnvRelayFail cTxA cS0).1.relayed ≠ cS0.relayed →
      (∃ g0, cEnvRelayFail.generator = some g0 ∧ g0 ≠ "")
        ∧ cEnvRelayFail.addTxErr cTxA = none
        ∧ (publishTx cEnvRelayFail cTxA cS0).1.relayed = cS0.relayed ++ [cTxA]
        ∧ (publishTx cEnvRelayFail cTxA cS0).1.pool = cS0.pool ++ [cTxA])
    ∧ (cEnvRelayFail.generator = some "gen.example:1999" → "gen.example:1999" ≠ "" →
        cEnvRelayFail.addTxErr cTxA = none →
        cEnvRelayFail.submitErr cTxA = some cRelayErr →
        publishTx cEnvRelayFail cTxA cS0 =
          ({ pool := cS0.pool ++ [cTxA], relayed := cS0.relayed ++ [cTxA] },
            some (Err.wrap ["generator transaction notice"] cRelayErr))) :=
  publishTx_relay_policy cEnvRelayFail cTxA cS0 "gen.example:1999" cRelayErr

/-- A concrete account-UTXO row for outpoint `("txP", 0)` that is already
marked spent-in-pool. -/
def cPrevRowSpent : Row :=
  { txHash := "txP", index := 0, assetID := "asset0", amount := 1
    managerNodeID := "mn0", accountID := "acc0", addrIndex := 0
    script := "scriptP", metadata := ""
    spentInPool := true, confirmedIn := none, blockPos := none }

/-- C7 counterexample: for a row that was already marked spent-in-pool
before the first call, marking spent then unspent leaves the flag `false`,
not its pre-call value `true` — the claimed round-trip fails. -/
theorem markPrevSpentInPool_roundtrip_cex :
    rowHit [cTxA] cPrevRowSpent = true
    ∧ ((markPrevSpentInPool false [cTxA]
          (markPrevSpentInPool true [cTxA] [cPrevRowSpent])).getD 0 default).spentInPool
        ≠ cPrevRowSpent.spentInPool := by decide

/-- A spent-in-pool update does not change which rows the batch filter
matches. -/
lemma rowHit_set_spentInPool (txs : List Tx) (r : Row) (v : Bool) :
    rowHit txs { r with spentInPool := v } = rowHit txs r := rfl

/-- C7 (amended): after `markPrevSpentInPool(true, [tx])` then
`markPrevSpentInPool(false, [tx])`, a row referenced by a non-issuance input
of `tx` has its `spent_in_pool` flag forced to `false`; this equals its
pre-call value exactly when the row was not already marked spent-in-pool
before the first call — the hypothesis below. -/
theorem markPrevSpentInPool_roundtrip (txs : List Tx) (t : Table) (i : Nat)
    (hi : i < t.length)
    (href : rowHit txs (t.getD i default) = true)
    (hpre : (t.getD i default).spentInPool = false) :
    ((markPrevSpentInPool false txs
        (markPrevSpentInPool true txs t)).getD i default).spentInPool
      = (t.getD i default).spentInPool := by
  unfold markPrevSpentInPool
  rw [List.map_map]
  have hlen : i < (t.map ((fun r =>
      if rowHit txs r then { r with spentInPool := false } else r) ∘
      fun r => if rowHit txs r then { r with spentInPool := true } else r)).length := by
    simpa using hi
  rw [List.getD_eq_getElem _ _ hlen, List.getElem_map, ← List.getD_eq_getElem t default hi]
  simp only [Function.comp_apply, href, if_pos, rowHit_set_spentInPool, hpre]

/-- A concrete unspent row for outpoint `("txP", 1)`. -/
def cPrevRowUnspent : Row :=
  { cPrevRowSpent with index := 1, spentInPool := false }

/-- A concrete transaction spending outpoint `("txP", 1)`. -/
def cTxB : Tx :=
  { hash := "txB"
    inputs := [{ isIssuance := false, previous := { hash := "txP", index := 1 } }]
    outputs := [] }

/-- Witness for C7 (amended) at a concrete referenced, unspent row. -/
theorem markPrevSpentInPool_roundtrip_witness :
    0 < ([cPrevRowUnspent] : Table).length
    ∧ rowHit [cTxB] (([cPrevRowUnspent] : Table).getD 0 default) = true
    ∧ (([cPrevRowUnspent] : Table).getD 0 default).spentInPool = false
    ∧ ((markPrevSpentInPool false [cTxB]
          (markPrevSpentInPool true [cTxB] [cPrevRowUnspent])).getD 0 default).spentInPool
        = (([cPrevRowUnspent] : Table).getD 0 default).spentInPool :=
  ⟨by decide, by decide, by decide,
    markPrevSpentInPool_roundtrip [cTxB] [cPrevRowUnspent] 0
      (by decide) (by decide) (by decide)⟩

/-- C8: `addBlock` has no error channel at all — it returns the updated table
and a log for every environment, block, conflict list and table; a failing
confirmation update is logged (first conjunct), a failing spend-mark release
is logged (second conjunct), and a failure of the confirmation update does
not prevent the conflict spend-mark release from running (third
conjunct). -/
theorem addBlock_swallows_errors (env : DbEnv) (b : Block) (conflicts : List Tx)
    (t : Table) (e1 e2 : Err) :
    (env.confirmErr = some e1 →
      LogEntry.mk "account utxos indexing block" e1 ∈ (addBlock env b conflicts t).2)
    ∧ (env.markErr = some e2 →
      LogEntry.mk "marking prevouts unspent in pool" e2 ∈ (addBlock env b conflicts t).2)
    ∧ (env.confirmErr = some e1 → env.markErr = none →
      addBlock env b conflicts t =
        (markPrevSpentInPool false conflicts t,
          [LogEntry.mk "account utxos indexing block" e1])) := by
  refine ⟨fun h1 => ?_, fun h2 => ?_, fun h1 h2 => ?_⟩
  · unfold addBlock
    rw [h1]
    cases h : env.markErr <;> simp
  · unfold addBlock
    rw [h2]
    cases h : env.confirmErr <;> simp
  · unfold addBlock
    rw [h1, h2]
    rfl

/-- Witness for C8: both statements fail, the block and conflicts are
concrete, and both errors are logged while the spend-mark release would have
run had its statement succeeded. -/
theorem addBlock_swallows_errors_witness :
    (DbEnv.mk (some cValErr) (some cRelayErr)).confirmErr = some cValErr
    ∧ ((DbEnv.mk (some cValErr) (some cRelayErr)).confirmErr = some cValErr →
        LogEntry.mk "account utxos indexing block" cValErr ∈
          (addBlock (DbEnv.mk (some cValErr) (some cRelayErr))
            (Block.mk 7 [cTxA]) [cTxB] [cPrevRowSpent]).2)
    ∧ ((DbEnv.mk (some cValErr) (some cRelayErr)).markErr = some cRelayErr →
        LogEntry.mk "marking prevouts unspent in pool" cRelayErr ∈
          (addBlock (DbEnv.mk (some cValErr) (some cRelayErr))
            (Block.mk 7 [cTxA]) [cTxB] [cPrevRowSpent]).2)
    ∧ ((DbEnv.mk (some cValErr) (some cRelayErr)).confirmErr = some cValErr →
        (DbEnv.mk (some cValErr) (some cRelayErr)).markErr = none →
        addBlock (DbEnv.mk (some cValErr) (some cRelayErr))
            (Block.mk 7 [cTxA]) [cTxB] [cPrevRowSpent] =
          (markPrevSpentInPool false [cTxB] [cPrevRowSpent],
            [LogEntry.mk "account utxos indexing block" cValErr])) :=
  ⟨rfl, addBlock_swallows_errors (DbEnv.mk (some cValErr) (some cRelayErr))
    (Block.mk 7 [cTxA]) [cTxB] [cPrevRowSpent] cValErr cRelayErr⟩

/-- The key list after one conflict-ignoring insert. -/
lemma keys_insertRow (t : Table) (r : Row) :
    (insertRow t r).map rowKey =
      if rowKey r ∈ t.map rowKey then t.map rowKey
      else t.map rowKey ++ [rowKey r] := by
  unfold insertRow
  split <;> simp

/-- The inserted row's key is present after one insert. -/
lemma mem_keys_insertRow (t : Table) (r : Row) :
    rowKey r ∈ (insertRow t r).map rowKey := by
  rw [keys_insertRow]
  split <;> simp_all

/-- One insert never removes a key. -/
lemma mem_keys_insertRow_mono (t : Table) (r : Row) (k : String × Nat)
    (h : k ∈ t.map rowKey) : k ∈ (insertRow t r).map rowKey := by
  rw [keys_insertRow]
  split <;> simp [h]

/-- One insert preserves key uniqueness. -/
lemma nodup_keys_insertRow (t : Table) (r : Row) (h : (t.map rowKey).Nodup) :
    ((insertRow t r).map rowKey).Nodup := by
  rw [keys_insertRow]
  split
  · exact h
  · rename_i hnot
    simp [List.nodup_append, h, hnot]

/-- Inserting a row whose key is already present is a no-op. -/
lemma insertRow_of_mem (t : Table) (r : Row) (h : rowKey r ∈ t.map rowKey) :
    insertRow t r = t := by
  unfold insertRow
  rw [if_pos h]

/-- A batched insert never removes a key. -/
lemma foldl_insert_keys_mono (rows : List Row) : ∀ (t : Table) (k : String × Nat),
    k ∈ t.map rowKey → k ∈ (rows.foldl insertRow t).map rowKey := by
  induction rows with
  | nil => intro t k hk; simpa using hk
  | cons r rows ih =>
    intro t k hk
    rw [List.foldl_cons]
    exact ih _ _ (mem_keys_insertRow_mono t r k hk)

/-- Every key of the batch is present after the batched insert. -/
lemma foldl_insert_mem (rows : List Row) : ∀ (t : Table) (r : Row), r ∈ rows →
    rowKey r ∈ (rows.foldl insertRow t).map rowKey := by
  induction rows with
  | nil => intro t r hr; simp at hr
  | cons a rows ih =>
    intro t r hr
    rw [List.foldl_cons]
    rcases List.mem_cons.mp hr with h | h
    · subst h
      exact foldl_insert_keys_mono rows _ _ (mem_keys_insertRow t r)
    · exact ih _ _ h

/-- A batched insert preserves key uniqueness. -/
lemma foldl_insert_nodup (rows : List Row) : ∀ (t : Table),
    (t.map rowKey).Nodup → ((rows.foldl insertRow t).map rowKey).Nodup := by
  induction rows with
  | nil => intro t h; exact h
  | cons r rows ih =>
    intro t h
    rw [List.foldl_cons]
    exact ih _ (nodup_keys_insertRow t r h)

/-- A batched insert whose keys are all already present is a no-op. -/
lemma foldl_insert_noop (rows : List Row) : ∀ (t : Table),
    (∀ r ∈ rows, rowKey r ∈ t.map rowKey) → rows.foldl insertRow t = t := by
  induction rows with
  | nil => intro t _; rfl
  | cons a rows ih =>
    intro t h
    rw [List.foldl_cons, insertRow_of_mem t a (h a (by simp))]
    exact ih t fun r hr => h r (by simp [hr])

/-- A member of a duplicate-free list is counted exactly once. -/
lemma count_one_of_mem_nodup (k : String × Nat) (l : List (String × Nat))
    (h : l.Nodup) (hm : k ∈ l) : l.count k = 1 := by
  induction l with
  | nil => simp at hm
  | cons a l ih =>
    rw [List.count_cons]
    rcases List.mem_cons.mp hm with he | he
    · subst he
      have hk : k ∉ l := (List.nodup_cons.mp h).1
      simp [List.count_eq_zero.mpr hk]
    · have hne : a ≠ k := by
        rintro rfl
        exact (List.nodup_cons.mp h).1 he
      have hc := ih (List.nodup_cons.mp h).2 he
      simp [hc, hne, Ne.symm hne]

/-- C1: on a table with unique `(tx_hash, index)` keys, the batched
conflict-ignoring insert is idempotent (a second call with the same outputs
changes nothing, so re-inserting an existing outpoint is a no-op and never an
error — the operation is total), keeps the keys unique, and leaves exactly
one row per inserted outpoint's key. -/
theorem insertAccountOutputs_idempotent (outs : List Output) (t : Table)
    (h : keysUnique t) :
    insertAccountOutputs outs (insertAccountOutputs outs t)
        = insertAccountOutputs outs t
    ∧ keysUnique (insertAccountOutputs outs t)
    ∧ ∀ out ∈ outs,
        countKey (insertAccountOutputs outs t) (rowKey (rowOfOutput out)) = 1 := by
  unfold insertAccountOutputs countKey keysUnique
  refine ⟨?_, ?_, ?_⟩
  · exact foldl_insert_noop (outs.map rowOfOutput) _ fun r hr =>
      foldl_insert_mem (outs.map rowOfOutput) t r hr
  · exact foldl_insert_nodup (outs.map rowOfOutput) t h
  · intro out hout
    exact count_one_of_mem_nodup _ _
      (foldl_insert_nodup (outs.map rowOfOutput) t h)
      (foldl_insert_mem (outs.map rowOfOutput) t (rowOfOutput out)
        (List.mem_map_of_mem rowOfOutput hout))

/-- A concrete resolved output for outpoint `("txA", 0)`. -/
def cOut : Output :=
  { outpoint := { hash := "txA", index := 0 }
    assetID := "asset0", amount := 5
    accountID := "acc0", managerNodeID := "mn0"
    addrIndex := (1, 2), script := "scriptA", metadata := "" }

/-- Witness for C1: a batch that itself repeats the same outpoint, inserted
into the empty table. -/
theorem insertAccountOutputs_idempotent_witness :
    keysUnique ([] : Table)
    ∧ (insertAccountOutputs [cOut, cOut] (insertAccountOutputs [cOut, cOut] [])
          = insertAccountOutputs [cOut, cOut] []
      ∧ keysUnique (insertAccountOutputs [cOut, cOut] [])
      ∧ ∀ out ∈ [cOut, cOut],
          countKey (insertAccountOutputs [cOut, cOut] [])
            (rowKey (rowOfOutput out)) = 1) :=
  ⟨by decide, insertAccountOutputs_idempotent [cOut, cOut] [] (by decide)⟩

/-- A non-decisive iteration of the wait loop at height `h`: the context has
not completed, the block landed without error, the lookup succeeded, and the
transaction is still in the pool only. -/
def nonDecisive (env : WaitEnv) (tx : Tx) (h : Nat) : Prop :=
  env.ctxDoneAt h = false ∧ env.waitForBlock h = none ∧
    ∃ p b, env.getTxs h = .ok (p, b) ∧ tx.hash ∉ b ∧ tx.hash ∈ p

/-- Unfolding of one wait-loop iteration. -/
lemma waitLoop_succ (env : WaitEnv) (tx : Tx) (height fuel : Nat) :
    waitLoop env tx height (fuel + 1) =
      if env.ctxDoneAt (height + 1) then some (.error env.ctxErr)
      else
        match env.waitForBlock (height + 1) with
        | some err =>
          some (.error (Err.wrap ["waiting for block " ++ toString (height + 1)] err))
        | none =>
          match env.getTxs (height + 1) with
          | .error err => some (.error (Err.wrap ["getting pool/bc txs"] err))
          | .ok (poolTxs, bcTxs) =>
            if tx.hash ∈ bcTxs then some (.ok tx)
            else if tx.hash ∉ poolTxs then some (.error (Err.new ErrRoot.rejected))
            else waitLoop env tx (height + 1) fuel := rfl

/-- When the context completes before the next block, the loop returns the
context's error. -/
lemma waitLoop_done (env : WaitEnv) (tx : Tx) (height fuel : Nat)
    (hd : env.ctxDoneAt (height + 1) = true) :
    waitLoop env tx height (fuel + 1) = some (.error env.ctxErr) := by
  rw [waitLoop_succ, if_pos hd]

/-- When the next block lands and the lookup succeeds, the loop classifies
the landed block. -/
lemma waitLoop_decides (env : WaitEnv) (tx : Tx) (height fuel : Nat)
    (p b : List Hash)
    (hd : env.ctxDoneAt (height + 1) = false)
    (hw : env.waitForBlock (height + 1) = none)
    (hg : env.getTxs (height + 1) = .ok (p, b)) :
    waitLoop env tx height (fuel + 1) =
      if tx.hash ∈ b then some (.ok tx)
      else if tx.hash ∉ p then some (.error (Err.new ErrRoot.rejected))
      else waitLoop env tx (height + 1) fuel := by
  rw [waitLoop_succ, if_neg (by simp [hd]), hw, hg]

/-- Non-decisive iterations advance the loop height one by one. -/
lemma waitLoop_skip (env : WaitEnv) (tx : Tx) : ∀ (m height fuel : Nat),
    (∀ h, height < h → h ≤ height + m → nonDecisive env tx h) →
    waitLoop env tx height (m + fuel) = waitLoop env tx (height + m) fuel := by
  intro m
  induction m with
  | zero => intro height fuel _; simp
  | succ m ih =>
    intro height fuel hnd
    obtain ⟨hd, hw, p, b, hg, hb, hp⟩ := hnd (height + 1) (by omega) (by omega)
    have harith : m + 1 + fuel = (m + fuel) + 1 := by omega
    rw [harith, waitLoop_decides env tx height (m + fuel) p b hd hw hg,
      if_neg hb, if_neg (not_not_intro hp)]
    have hrest := ih (height + 1) fuel fun h hh1 hh2 => hnd h (by omega) (by omega)
    rw [hrest]
    have h2 : height + 1 + m = height + (m + 1) := by omega
    rw [h2]

/-- When the engine returns a latest block and finalize succeeds, the waiter
is the loop started at the captured height. -/
lemma FinalizeTxWait_eq_loop (fenv : FinEnv) (wenv : WaitEnv) (txTemplate : Template)
    (s s1 : LState) (ob : Option Block) (tx : Tx) (fuel : Nat)
    (hlb : wenv.latestBlock = .ok ob)
    (hft : FinalizeTx fenv txTemplate s = (s1, .ok tx)) :
    FinalizeTxWait fenv wenv txTemplate s fuel =
      (s1, waitLoop wenv tx (capturedHeight ob) fuel) := by
  simp only [FinalizeTxWait, hlb, hft]

/-- C2: the waiter captures the engine's latest height before finalizing and
polls heights `captured+1, captured+2, ..` in order; after any run of
iterations in which the transaction stayed in the pool only, the first block
at which the lookup is decisive settles the outcome: present in the
confirmed chain returns the transaction with no error, absent from both pool
and chain returns the rejected error. -/
theorem FinalizeTxWait_classifies (fenv : FinEnv) (wenv : WaitEnv)
    (txTemplate : Template) (s s1 : LState) (ob : Option Block) (tx : Tx)
    (n fuel : Nat) (p b : List Hash)
    (hlb : wenv.latestBlock = .ok ob)
    (hft : FinalizeTx fenv txTemplate s = (s1, .ok tx))
    (hn : 1 ≤ n) (hfuel : n ≤ fuel)
    (hnd : ∀ h, capturedHeight ob < h → h < capturedHeight ob + n →
      nonDecisive wenv tx h)
    (hd : wenv.ctxDoneAt (capturedHeight ob + n) = false)
    (hw : wenv.waitForBlock (capturedHeight ob + n) = none)
    (hg : wenv.getTxs (capturedHeight ob + n) = .ok (p, b)) :
    (tx.hash ∈ b →
      FinalizeTxWait fenv wenv txTemplate s fuel = (s1, some (.ok tx)))
    ∧ (tx.hash ∉ b → tx.hash ∉ p →
      FinalizeTxWait fenv wenv txTemplate s fuel =
        (s1, some (.error (Err.new ErrRoot.rejected)))) := by
  have h2 : capturedHeight ob + (n - 1) + 1 = capturedHeight ob + n := by omega
  have key : waitLoop wenv tx (capturedHeight ob) fuel =
      if tx.hash ∈ b then some (.ok tx)
      else if tx.hash ∉ p then some (.error (Err.new ErrRoot.rejected))
      else waitLoop wenv tx (capturedHeight ob + n) (fuel - n) := by
    have h1 : fuel = (n - 1) + ((fuel - n) + 1) := by omega
    conv_lhs => rw [h1]
    rw [waitLoop_skip wenv tx (n - 1) (capturedHeight ob) ((fuel - n) + 1)
      (fun h hh1 hh2 => hnd h hh1 (by omega))]
    rw [waitLoop_decides wenv tx (capturedHeight ob + (n - 1)) (fuel - n) p b
      (by rw [h2]; exact hd) (by rw [h2]; exact hw) (by rw [h2]; exact hg)]
    rw [h2]
  constructor
  · intro hbm
    rw [FinalizeTxWait_eq_loop fenv wenv txTemplate s s1 ob tx fuel hlb hft,
      key, if_pos hbm]
  · intro hbn hpn
    rw [FinalizeTxWait_eq_loop fenv wenv txTemplate s s1 ob tx fuel hlb hft,
      key, if_neg hbn, if_pos hpn]

/-- A concrete template with no signature entries and no unsigned inputs. -/
def cTmplOk : Template := { unsigned := { inputs := [] }, inputs := [] }

/-- The ledger state after the concrete successful submission. -/
def cS1 : LState := { pool := [cTxA], relayed := [] }

/-- A concrete waiting environment: latest height 5, and the block at every
height confirms `cTxA`. -/
def cWEnvConfirm : WaitEnv :=
  { latestBlock := .ok (some (Block.mk 5 []))
    waitForBlock := fun _ => none
    getTxs := fun _ => .ok ([], ["txA"])
    ctxDoneAt := fun _ => false
    ctxErr := Err.new ErrRoot.deadlineExceeded }

/-- Witness for C2: the first polled height after the captured height 5
confirms the transaction. -/
theorem FinalizeTxWait_classifies_witness :
    cWEnvConfirm.latestBlock = .ok (some (Block.mk 5 []))
    ∧ FinalizeTx cEnvOk cTmplOk cS0 = (cS1, .ok cTxA)
    ∧ ((cTxA.hash ∈ (["txA"] : List Hash) →
        FinalizeTxWait cEnvOk cWEnvConfirm cTmplOk cS0 1 = (cS1, some (.ok cTxA)))
      ∧ (cTxA.hash ∉ (["txA"] : List Hash) → cTxA.hash ∉ ([] : List Hash) →
        FinalizeTxWait cEnvOk cWEnvConfirm cTmplOk cS0 1 =
          (cS1, some (.error (Err.new ErrRoot.rejected))))) :=
  ⟨rfl, rfl,
    FinalizeTxWait_classifies cEnvOk cWEnvConfirm cTmplOk cS0 cS1
      (some (Block.mk 5 [])) cTxA 1 1 [] ["txA"] rfl rfl (by omega) (by omega)
      (fun h hh1 hh2 => absurd hh1 (by omega)) rfl rfl rfl⟩

/-- C6: when the caller's context completes before any decisive block
outcome is observed, the waiter returns the context's own error (whose root
is the context's deadline/cancellation root, never the rejected
sentinel). -/
theorem FinalizeTxWait_ctx_done (fenv : FinEnv) (wenv : WaitEnv)
    (txTemplate : Template) (s s1 : LState) (ob : Option Block) (tx : Tx)
    (k fuel : Nat)
    (hlb : wenv.latestBlock = .ok ob)
    (hft : FinalizeTx fenv txTemplate s = (s1, .ok tx))
    (hk : 1 ≤ k) (hfuel : k ≤ fuel)
    (hnd : ∀ h, capturedHeight ob < h → h < capturedHeight ob + k →
      nonDecisive wenv tx h)
    (hd : wenv.ctxDoneAt (capturedHeight ob + k) = true)
    (hroot : wenv.ctxErr.root = ErrRoot.deadlineExceeded
      ∨ wenv.ctxErr.root = ErrRoot.canceled) :
    FinalizeTxWait fenv wenv txTemplate s fuel = (s1, some (.error wenv.ctxErr))
    ∧ wenv.ctxErr.root ≠ ErrRoot.rejected := by
  have h2 : capturedHeight ob + (k - 1) + 1 = capturedHeight ob + k := by omega
  constructor
  · rw [FinalizeTxWait_eq_loop fenv wenv txTemplate s s1 ob tx fuel hlb hft]
    have h1 : fuel = (k - 1) + ((fuel - k) + 1) := by omega
    rw [h1, waitLoop_skip wenv tx (k - 1) (capturedHeight ob) ((fuel - k) + 1)
      (fun h hh1 hh2 => hnd h hh1 (by omega))]
    exact congrArg _ (waitLoop_done wenv tx (capturedHeight ob + (k - 1))
      (fuel - k) (by rw [h2]; exact hd))
  · rcases hroot with h | h <;> simp [h]

/-- A concrete waiting environment whose context is already done at every
poll. -/
def cWEnvCtx : WaitEnv :=
  { latestBlock := .ok (some (Block.mk 5 []))
    waitForBlock := fun _ => none
    getTxs := fun _ => .ok (["txA"], [])
    ctxDoneAt := fun _ => true
    ctxErr := Err.new ErrRoot.deadlineExceeded }

/-- Witness for C6: the context deadline fires at the first polled
height. -/
theorem FinalizeTxWait_ctx_done_witness :
    cWEnvCtx.ctxDoneAt (capturedHeight (some (Block.mk 5 [])) + 1) = true
    ∧ (FinalizeTxWait cEnvOk cWEnvCtx cTmplOk cS0 1 =
        (cS1, some (.error cWEnvCtx.ctxErr))
      ∧ cWEnvCtx.ctxErr.root ≠ ErrRoot.rejected) :=
  ⟨rfl,
    FinalizeTxWait_ctx_done cEnvOk cWEnvCtx cTmplOk cS0 cS1
      (some (Block.mk 5 [])) cTxA 1 1 rfl rfl (by omega) (by omega)
      (fun h hh1 hh2 => absurd hh1 (by omega)) rfl (Or.inl rfl)⟩

/-- C10: when `LatestBlock` reports no latest block (`nil` block, no error),
the waiter does not fail: it treats the captured height as `0` and behaves
as the loop started at height `0`, so its first awaited height is `1` — in
particular a confirming block at height `1` settles the outcome. -/
theorem FinalizeTxWait_nil_latest_block (fenv : FinEnv) (wenv : WaitEnv)
    (txTemplate : Template) (s s1 : LState) (tx : Tx) (fuel : Nat)
    (p b : List Hash)
    (hlb : wenv.latestBlock = .ok none)
    (hft : FinalizeTx fenv txTemplate s = (s1, .ok tx)) :
    FinalizeTxWait fenv wenv txTemplate s fuel = (s1, waitLoop wenv tx 0 fuel)
    ∧ (1 ≤ fuel → wenv.ctxDoneAt 1 = false → wenv.waitForBlock 1 = none →
      wenv.getTxs 1 = .ok (p, b) → tx.hash ∈ b →
      FinalizeTxWait fenv wenv txTemplate s fuel = (s1, some (.ok tx))) := by
  have hbase : FinalizeTxWait fenv wenv txTemplate s fuel =
      (s1, waitLoop wenv tx 0 fuel) :=
    FinalizeTxWait_eq_loop fenv wenv txTemplate s s1 none tx fuel hlb hft
  refine ⟨hbase, fun hfuel hd1 hw1 hg1 hbm => ?_⟩
  have h1 : fuel = (fuel - 1) + 1 := by omega
  rw [hbase, h1, waitLoop_decides wenv tx 0 (fuel - 1) p b hd1 hw1 hg1,
    if_pos hbm]

/-- A concrete waiting environment reporting no latest block (empty
chain). -/
def cWEnvNil : WaitEnv :=
  { latestBlock := .ok none
    waitForBlock := fun _ => none
    getTxs := fun _ => .ok ([], ["txA"])
    ctxDoneAt := fun _ => false
    ctxErr := Err.new ErrRoot.deadlineExceeded }

/-- Witness for C10: on an empty chain the first awaited height is `1` and a
confirming block there returns the transaction. -/
theorem FinalizeTxWait_nil_latest_block_witness :
    cWEnvNil.latestBlock = .ok none
    ∧ (FinalizeTxWait cEnvOk cWEnvNil cTmplOk cS0 1 =
        (cS1, waitLoop cWEnvNil cTxA 0 1)
      ∧ (1 ≤ 1 → cWEnvNil.ctxDoneAt 1 = false → cWEnvNil.waitForBlock 1 = none →
        cWEnvNil.getTxs 1 = .ok ([], ["txA"]) → cTxA.hash ∈ (["txA"] : List Hash) →
        FinalizeTxWait cEnvOk cWEnvNil cTmplOk cS0 1 = (cS1, some (.ok cTxA)))) :=
  ⟨rfl,
    FinalizeTxWait_nil_latest_block cEnvOk cWEnvNil cTmplOk cS0 cS1 cTxA 1
      [] ["txA"] rfl rfl⟩

end ChainAsset
